import Mathlib

/-!
Verification of the fastar parallel ordered-download core and tar extractor
against its natural-language specification.

The Go sources are embedded shallowly:
* `int64` values are modelled as `ℤ`, with two's-complement wrap-around
  (`wrap64`) applied exactly where the Go code performs arithmetic that can
  overflow (`+`, `-` on `int64`).
* byte contents are modelled as `List ℕ` (one `ℕ` per byte);
* Go interfaces become structures of functions; `io.Reader` streams consumed
  to the end become the list of bytes they deliver, with `Option` used where
  the consumer can block forever (fuel-based loops: `none` models a hang);
* process-terminating calls (`os.Exit`, `log.Fatal`) become explicit
  result constructors carrying the exit code.
-/

namespace Fastar

/-- Two's-complement wrap-around of an integer into the `int64` range
`[-2^63, 2^63)`, modelling Go `int64` arithmetic overflow. -/
def wrap64 (z : ℤ) : ℤ := (z + 2 ^ 63) % 2 ^ 64 - 2 ^ 63

/-- `wrap64` is the identity on values already inside the `int64` range. -/
theorem wrap64_eq_self {z : ℤ} (h1 : -2 ^ 63 ≤ z) (h2 : z < 2 ^ 63) :
    wrap64 z = z := by
  unfold wrap64
  rw [Int.emod_eq_of_lt (by omega) (by omega)]
  omega

/-- Source (`downloader.go`):
`func ChunkFinished(curChunkStart, curProgress, fileSize, chunkSize int64) bool`
`return curProgress == chunkSize || curChunkStart+curProgress >= fileSize`.
Arguments are `int64`; the sum `curChunkStart+curProgress` is computed with
Go's wrapping `int64` addition. -/
def ChunkFinished (curChunkStart curProgress fileSize chunkSize : ℤ) : Bool :=
  curProgress == chunkSize || decide (wrap64 (curChunkStart + curProgress) ≥ fileSize)

/-- The same source function `ChunkFinished`, specialised to the `ℕ`-valued
offsets the download engine actually calls it with (all call sites pass
byte offsets and sizes in `[0, fileSize]`, far below `2^63`, so the wrapping
addition is exact there). -/
def ChunkFinishedNat (curChunkStart curProgress fileSize chunkSize : ℕ) : Bool :=
  curProgress == chunkSize || decide (curChunkStart + curProgress ≥ fileSize)

/-- Source (`downloader.go`), body of the `for i` loop in
`GenerateRangeString`: item `i` contributes
`FormatInt(ranges[i][0]) + "-" + FormatInt(ranges[i][1]-1)` and a comma is
appended whenever `i+1 < len(ranges)`.  The subtraction `ranges[i][1]-1` is
Go `int64` subtraction, hence wrapped. -/
def rangeItemsString : List (ℤ × ℤ) → String
  | [] => ""
  | [r] => toString r.1 ++ "-" ++ toString (wrap64 (r.2 - 1))
  | r :: rest => toString r.1 ++ "-" ++ toString (wrap64 (r.2 - 1)) ++ "," ++ rangeItemsString rest

/-- Source (`downloader.go`):
`func GenerateRangeString(ranges [][]int64) string` starts from `"bytes="`
and appends the comma-separated inclusive items.  Rows of the `[][]int64`
are modelled as pairs. -/
def GenerateRangeString (ranges : List (ℤ × ℤ)) : String :=
  "bytes=" ++ rangeItemsString ranges

/-- Comma-separated join, the spec's reading of the wire format
`"bytes=a0-(b0-1),a1-(b1-1),..."`. -/
def joinComma : List String → String
  | [] => ""
  | [s] => s
  | s :: rest => s ++ "," ++ joinComma rest

/-- The wire format named by the spec, with exact (mathematical) subtraction
`b - 1` on each half-open upper bound. -/
def rangeWireFormat (ranges : List (ℤ × ℤ)) : String :=
  "bytes=" ++ joinComma (ranges.map fun r => toString r.1 ++ "-" ++ toString (r.2 - 1))

theorem rangeItemsString_eq_joinComma (ranges : List (ℤ × ℤ))
    (hv : ∀ p ∈ ranges, 0 ≤ p.1 ∧ p.1 ≤ p.2 ∧ p.2 < 2 ^ 63) :
    rangeItemsString ranges
      = joinComma (ranges.map fun r => toString r.1 ++ "-" ++ toString (r.2 - 1)) := by
  induction ranges with
  | nil => rfl
  | cons r rest ih =>
    have hr := hv r (List.mem_cons_self r rest)
    have hwrap : wrap64 (r.2 - 1) = r.2 - 1 :=
      wrap64_eq_self (by omega) (by omega)
    cases rest with
    | nil => simp [rangeItemsString, joinComma, hwrap]
    | cons r2 rest2 =>
      have ih2 := ih (fun p hp => hv p (List.mem_cons_of_mem r hp))
      simp only [rangeItemsString, List.map, joinComma, hwrap] at *
      rw [ih2]

/-- Source (`downloader.go`): the `Downloader` interface.  `GetFileInfo`
returns the file size, RANGE support, and multipart RANGE support; `Get`
is a reader for the entire file; `GetRange start end` is a reader for the
half-open range `[start, end)`.  Streams are modelled by the byte list they
deliver when read to the end. -/
structure Downloader where
  GetFileInfo : ℕ × Bool × Bool
  Get : List ℕ
  GetRange : ℕ → ℕ → List ℕ

/-- The size the probe reports. -/
def Downloader.size (d : Downloader) : ℕ := d.GetFileInfo.1

/-- Source (`downloader_test.go`): the `TestDownloader` adapter over an
in-memory byte string.  `GetFileInfo` returns `(len(Data), RangeSupport,
MultipartSupport)`, `Get` returns the whole data and `GetRange start end`
returns `Data[start:end]`. -/
def TestDownloader (Data : List ℕ) (RangeSupport MultipartSupport : Bool) : Downloader where
  GetFileInfo := (Data.length, RangeSupport, MultipartSupport)
  Get := Data
  GetRange := fun start stop => (Data.take stop).drop start

/-- Modelled from the spec: the chunk-reader source file (`NewReader`,
`RequestChunk`, `Read`, `Reset`, `AdvanceNextChunk`, `UseMultipart`) is not
in `src/`; only its callers are.  Per spec §4.3, in single-range mode each
chunk is a fresh `get_range` over the chunk's half-open range
`[start, min(start+C, S))`, and in multipart mode the worker's stripe is
requested as parts carrying exactly the same per-chunk byte ranges, so in
both modes reading the current chunk to completion delivers the bytes of
`[start, min(start+C, S))`. -/
def readerChunkBytes (d : Downloader) (start chunkSize : ℕ) : List ℕ :=
  d.GetRange start (min (start + chunkSize) d.size)

/-- Source (`downloader.go`, end of the per-chunk worker loop):
`if reader.CurChunkStart+chunkSize < size { nextChan <- true } else { writer.Close() }`.
`true` means the worker passes the write token to the next worker; `false`
means it closes the pipe writer instead. -/
def passesToken (curChunkStart chunkSize size : ℕ) : Bool :=
  decide (curChunkStart + chunkSize < size)

/-- The serialized execution of the worker token ring.  Exactly one worker
holds the write token at any time; the holder writes its current chunk
(starting at `start`) to the pipe, then either passes the token to the next
worker — whose awaited chunk starts at `start + C` — or closes the pipe.
`ringStarts size C fuel start` is the list of chunk start offsets written to
the pipe from the moment the token reaches offset `start`; `none` models a
hang of the consumer: either the token was handed to a worker that had
already exited its `CurChunkStart < size` loop without closing the pipe
(the initial token when `size = 0`), or the ring never reaches the
pipe-closing branch (fuel exhausted; with `C = 0` the offsets never
advance, so no finite fuel suffices). -/
def ringStarts (size C : ℕ) : ℕ → ℕ → Option (List ℕ)
  | 0, _ => none
  | fuel + 1, start =>
    if size ≤ start then none
    else if passesToken start C size then (ringStarts size C fuel (start + C)).map (start :: ·)
    else some [start]

/-- The bytes the consumer obtains by reading the pipe to the end: the
concatenation, in token order, of each written chunk's bytes (each worker's
writer loop runs until `ChunkFinished(start, totalWritten, size, C)`, having
buffered the reader-delivered bytes of its chunk). -/
def pipeBytes (d : Downloader) (C fuel : ℕ) : Option (List ℕ) :=
  (ringStarts d.size C fuel 0).map fun starts =>
    (starts.map fun s => readerChunkBytes d s C).flatten

/-- The two shapes `GetDownloadStream` can return: the adapter's full-object
stream `downloader.Get()` (no workers spawned), or the read side of the pipe
fed by the token ring of `numWorkers` workers. -/
inductive DownloadStream where
  | full (bytes : List ℕ)
  | pipe (d : Downloader) (chunkSize numWorkers : ℕ) (supportsMultipart : Bool)

/-- Source (`downloader.go`):
`func GetDownloadStream(downloader Downloader, chunkSize int64, numWorkers int) io.Reader`.
After probing, `if !supportsRange || size < chunkSize { return downloader.Get() }`;
otherwise the token-ring pipe is set up and its read side returned. -/
def GetDownloadStream (d : Downloader) (chunkSize numWorkers : ℕ) : DownloadStream :=
  let info := d.GetFileInfo
  if !info.2.1 || info.1 < chunkSize then .full d.Get
  else .pipe d chunkSize numWorkers info.2.2

/-- Reading a returned stream to the end (`io.ReadAll`); `none` models a
consumer that blocks forever. -/
def readAll : DownloadStream → ℕ → Option (List ℕ)
  | .full b, _ => some b
  | .pipe d C _ _, fuel => pipeBytes d C fuel

/-- On `TestDownloader`, the chunk reader delivers exactly the chunk's slice
of the object. -/
theorem readerChunkBytes_testDownloader (Data : List ℕ) (rs ms : Bool) (s C : ℕ) :
    readerChunkBytes (TestDownloader Data rs ms) s C = (Data.drop s).take C := by
  unfold readerChunkBytes TestDownloader Downloader.size
  simp only [List.drop_take]
  have h1 : min (s + C) Data.length - s = min C (Data.length - s) := by omega
  rw [h1, List.take_eq_take]
  simp only [List.length_drop]
  omega

/-- With a positive chunk size, the serialized ring started at any offset
below the file size terminates (the pipe gets closed) and delivers the rest
of the object. -/
theorem ringStarts_join (Data : List ℕ) (C : ℕ) (_hC : 1 ≤ C) :
    ∀ fuel start, start < Data.length → Data.length ≤ start + fuel * C →
      (ringStarts Data.length C fuel start).map
          (fun starts => (starts.map fun s => (Data.drop s).take C).flatten)
        = some (Data.drop start) := by
  intro fuel
  induction fuel with
  | zero => intro start h1 h2; omega
  | succ n ih =>
    intro start h1 h2
    unfold ringStarts
    rw [if_neg (by omega)]
    by_cases hpass : passesToken start C Data.length = true
    · rw [if_pos hpass]
      have hlt : start + C < Data.length := by
        simpa [passesToken] using hpass
      have ih2 := ih (start + C) hlt (by
        have : (n + 1) * C = n * C + C := by ring
        omega)
      rcases Option.map_eq_some'.mp ih2 with ⟨l, hl, hjoin⟩
      rw [hl]
      simp only [Option.map_map, Option.map_some', Function.comp, List.map_cons,
        List.flatten_cons, Option.some.injEq]
      rw [hjoin]
      have : (Data.drop start).take C ++ Data.drop (start + C) = Data.drop start := by
        have hdd : Data.drop (start + C) = (Data.drop start).drop C := by
          rw [List.drop_drop]
        rw [hdd, List.take_append_drop]
      simp [this]
    · rw [if_neg hpass]
      have hge : Data.length ≤ start + C := by
        simp only [passesToken, decide_eq_true_eq] at hpass
        omega
      have : (Data.drop start).take C = Data.drop start := by
        apply List.take_of_length_le
        simp only [List.length_drop]
        omega
      simp [this]

/-- Structure of a completed serialized ring run: every chunk but the last
passes the token onward (`start + C < size`), and the run ends with the one
chunk for which `start + C ≥ size`, whose owner closes the pipe. -/
theorem ringStarts_last_closes (S C : ℕ) (_hC : 1 ≤ C) :
    ∀ fuel start, start < S → S ≤ start + fuel * C →
      ∃ init last, ringStarts S C fuel start = some (init ++ [last])
        ∧ (∀ s ∈ init, s + C < S) ∧ last < S ∧ S ≤ last + C := by
  intro fuel
  induction fuel with
  | zero => intro start h1 h2; omega
  | succ n ih =>
    intro start h1 h2
    unfold ringStarts
    rw [if_neg (by omega)]
    by_cases hpass : passesToken start C S = true
    · rw [if_pos hpass]
      have hlt : start + C < S := by simpa [passesToken] using hpass
      obtain ⟨init, last, heq, hinit, hlast1, hlast2⟩ := ih (start + C) hlt (by
        have : (n + 1) * C = n * C + C := by ring
        omega)
      refine ⟨start :: init, last, ?_, ?_, hlast1, hlast2⟩
      · rw [heq]; simp
      · intro s hs
        rcases List.mem_cons.mp hs with h | h
        · subst h; exact hlt
        · exact hinit s h
    · rw [if_neg hpass]
      have hge : S ≤ start + C := by
        simp only [passesToken, decide_eq_true_eq] at hpass
        omega
      exact ⟨[], start, by simp, by simp, h1, hge⟩

/-- With chunk size `0` and a non-empty object, the ring never advances:
every pass hands the token for the same offset `0`, so no fuel completes
the run (the Go code loops forever without closing the pipe). -/
theorem ringStarts_chunkZero_none : ∀ fuel, ringStarts 1 0 fuel 0 = none := by
  intro fuel
  induction fuel with
  | zero => rfl
  | succ n ih =>
    unfold ringStarts
    rw [if_neg (by omega), if_pos (by simp [passesToken])]
    simp [ih]

end Fastar

namespace Fastar

/-- C1: the claim quantifies the chunk size over `0 ≤ C < 32` in all three
adapter modes, but in single-range mode (range supported, multipart not)
with `C = 0` and a 1-byte object the engine takes the parallel path and the
token ring never closes the pipe: the workers' chunk offsets never advance,
so reading the stream to the end never yields the object's bytes (the
consumer blocks forever). -/
theorem getDownloadStream_chunkZero_hangs :
    ¬ ∃ fuel, readAll (GetDownloadStream (TestDownloader [0] true false) 0 1) fuel
        = some [0] := by
  rintro ⟨fuel, h⟩
  have hstream : GetDownloadStream (TestDownloader [0] true false) 0 1
      = .pipe (TestDownloader [0] true false) 0 1 false := by
    simp [GetDownloadStream, TestDownloader]
  rw [hstream] at h
  simp only [readAll, pipeBytes] at h
  have hsize : (TestDownloader [0] true false).size = 1 := rfl
  rw [hsize, ringStarts_chunkZero_none fuel] at h
  simp at h

/-- C1 (amended): byte-exactness holds for every object of size `S < 64`,
worker count `1 ≤ N < 32`, and chunk size `C < 32` provided `C ≥ 1`
whenever range requests are supported (with `C = 0` only the full-stream
fallback is exercised, which is exact): in all three adapter modes
(full-stream fallback, single-range, multipart) reading the returned stream
to the end yields exactly the object's bytes, in order. -/
theorem getDownloadStream_byte_exact (Data : List ℕ) (rs sm : Bool) (C N : ℕ)
    (hS : Data.length < 64) (hC : C < 32) (_hN1 : 1 ≤ N) (_hN2 : N < 32)
    (hCr : rs = true → 1 ≤ C) :
    ∃ fuel, readAll (GetDownloadStream (TestDownloader Data rs sm) C N) fuel
      = some Data := by
  cases rs with
  | false =>
    refine ⟨0, ?_⟩
    simp [GetDownloadStream, TestDownloader, readAll]
  | true =>
    by_cases hlt : Data.length < C
    · refine ⟨0, ?_⟩
      simp [GetDownloadStream, TestDownloader, readAll, hlt]
    · have hC1 : 1 ≤ C := hCr rfl
      have hS1 : 1 ≤ Data.length := by omega
      refine ⟨Data.length, ?_⟩
      have hstream : GetDownloadStream (TestDownloader Data true sm) C N
          = .pipe (TestDownloader Data true sm) C N sm := by
        simp [GetDownloadStream, TestDownloader, hlt]
      rw [hstream]
      show pipeBytes (TestDownloader Data true sm) C Data.length = some Data
      unfold pipeBytes
      have hsize : (TestDownloader Data true sm).size = Data.length := rfl
      rw [hsize]
      simp only [readerChunkBytes_testDownloader]
      have hfuel : Data.length ≤ 0 + Data.length * C := by
        have := Nat.le_mul_of_pos_right Data.length (by omega : 0 < C)
        omega
      have := ringStarts_join Data C hC1 Data.length 0 (by omega) hfuel
      simpa using this

/-- Witness for C1's amended theorem at a concrete input (multipart mode,
3-byte object, chunk size 2, 3 workers). -/
theorem getDownloadStream_byte_exact_witness :
    ∃ fuel, readAll (GetDownloadStream (TestDownloader [1, 2, 3] true true) 2 3) fuel
      = some [1, 2, 3] := by
  exact getDownloadStream_byte_exact [1, 2, 3] true true 2 3
    (by norm_num) (by norm_num) (by norm_num) (by norm_num) (fun _ => by norm_num)

/-- C2: whenever the probe reports no range support, or a size strictly
smaller than the chunk size, `GetDownloadStream` returns the adapter's
full-object stream `downloader.Get()` directly (no workers, no pipe), and
reading it yields exactly the object's bytes. -/
theorem probe_fallthrough (Data : List ℕ) (rs sm : Bool) (C N fuel : ℕ)
    (h : rs = false ∨ Data.length < C) :
    GetDownloadStream (TestDownloader Data rs sm) C N = .full Data
      ∧ readAll (GetDownloadStream (TestDownloader Data rs sm) C N) fuel
        = some Data := by
  have hfull : GetDownloadStream (TestDownloader Data rs sm) C N = .full Data := by
    rcases h with h | h
    · subst h; simp [GetDownloadStream, TestDownloader]
    · simp [GetDownloadStream, TestDownloader, h]
  exact ⟨hfull, by rw [hfull]; rfl⟩

/-- Witness for C2's theorem: a 2-byte object with no range support. -/
theorem probe_fallthrough_witness :
    GetDownloadStream (TestDownloader [7, 8] false false) 1 1 = .full [7, 8]
      ∧ readAll (GetDownloadStream (TestDownloader [7, 8] false false) 1 1) 0
        = some [7, 8] := by
  exact probe_fallthrough [7, 8] false false 1 1 0 (Or.inl rfl)

/-- C5: after writing its current chunk, a worker passes the write token
exactly when `curChunkStart + C < size` (first conjunct, the source's
branch); consequently a completed serialized run consists of chunks that
all pass the token except the last one, whose owner — the worker holding
the chunk that covers the object's final byte (`last < S ≤ last + C`) —
closes the pipe writer instead, signalling end-of-stream. -/
theorem worker_token_pass_iff :
    (∀ s C S : ℕ, passesToken s C S = true ↔ s + C < S)
      ∧ (∀ S C : ℕ, 1 ≤ C → 1 ≤ S → ∃ fuel init last,
          ringStarts S C fuel 0 = some (init ++ [last])
            ∧ (∀ s ∈ init, s + C < S)
            ∧ ¬ (last + C < S) ∧ last < S ∧ S ≤ last + C) := by
  refine ⟨fun s C S => by simp [passesToken], fun S C hC hS => ?_⟩
  have hfuel : S ≤ 0 + S * C := by
    have := Nat.le_mul_of_pos_right S (by omega : 0 < C)
    omega
  obtain ⟨init, last, heq, hinit, hl1, hl2⟩ :=
    ringStarts_last_closes S C hC S 0 (by omega) hfuel
  exact ⟨S, init, last, heq, hinit, by omega, hl1, hl2⟩

/-- Witness for C5's theorem: a 3-byte object with chunk size 2 — chunk 0
passes the token, chunk at offset 2 (covering the final byte) closes. -/
theorem worker_token_pass_iff_witness :
    ∃ fuel init last, ringStarts 3 2 fuel 0 = some (init ++ [last])
      ∧ (∀ s ∈ init, s + 2 < 3)
      ∧ ¬ (last + 2 < 3) ∧ last < 3 ∧ 3 ≤ last + 2 := by
  exact worker_token_pass_iff.2 3 2 (by norm_num) (by norm_num)

/-- `unix.ENOENT` on Linux. -/
def ENOENT : ℕ := 2

/-- `unix.EBUSY` on Linux. -/
def EBUSY : ℕ := 16

/-- `unix.EIO` on Linux. -/
def EIO : ℕ := 5

/-- What one HTTP attempt inside `retryHttpRequest` observes: a transport
error from `client.Do`, or a response with a status code. -/
inductive HttpAttempt where
  | transportError
  | response (statusCode : ℕ)

/-- How `retryHttpRequest` ends: return the response of the given attempt
index, terminate the process with an exit code (`os.Exit`), or
`log.Fatal("unknown http response")`. -/
inductive RetryOutcome where
  | success (attempt : ℕ)
  | exitProcess (code : ℕ)
  | fatalLog
  deriving DecidableEq

/-- Source (`http_downloader.go`): the closure passed to `retry.Do` inside
`retryHttpRequest`, iterated over the remaining attempt budget.  Per
attempt `i`: a transport error is returned to `retry.Do` (retried); a
non-2xx status is inspected — `404` calls `os.Exit(ENOENT)` on the spot,
`429`/`503` set the `throttled` flag and return an error (retried), any
other non-2xx returns an error (retried); a 2xx response is stored and the
loop returns success.  When the budget is exhausted with an error,
`os.Exit(EBUSY)` if the `throttled` flag was ever set, else
`log.Fatal("unknown http response")`. -/
def retryLoop (attempts : ℕ → HttpAttempt) : ℕ → ℕ → Bool → RetryOutcome
  | 0, _, throttled => if throttled then .exitProcess EBUSY else .fatalLog
  | n + 1, i, throttled =>
    match attempts i with
    | .transportError => retryLoop attempts n (i + 1) throttled
    | .response code =>
      if code < 200 ∨ 299 < code then
        if code = 404 then .exitProcess ENOENT
        else if code = 429 ∨ code = 503 then retryLoop attempts n (i + 1) true
        else retryLoop attempts n (i + 1) throttled
      else .success i

/-- Source (`http_downloader.go`): `retryHttpRequest` with
`retry.Attempts(uint(opts.RetryCount))` (total attempt budget `retryCount`,
assumed ≥ 1) starting with the `throttled` flag clear. -/
def retryHttpRequest (retryCount : ℕ) (attempts : ℕ → HttpAttempt) : RetryOutcome :=
  retryLoop attempts retryCount 0 false

/-- An attempt outcome that `retryHttpRequest` retries: a transport error,
or a non-2xx status other than 404. -/
def retryableAttempt : HttpAttempt → Prop
  | .transportError => True
  | .response code => (code < 200 ∨ 299 < code) ∧ code ≠ 404

/-- An attempt outcome the source classifies as throttled (429 or 503). -/
def throttledAttempt : HttpAttempt → Prop
  | .transportError => False
  | .response code => code = 429 ∨ code = 503

theorem retryLoop_reach404 (attempts : ℕ → HttpAttempt) :
    ∀ k n i (thr : Bool), k < n → (∀ j < k, retryableAttempt (attempts (i + j))) →
      attempts (i + k) = .response 404 →
      retryLoop attempts n i thr = .exitProcess ENOENT := by
  intro k
  induction k with
  | zero =>
    intro n i thr hk _ h404
    rw [Nat.add_zero] at h404
    cases n with
    | zero => omega
    | succ m => simp only [retryLoop, h404]; norm_num
  | succ k ih =>
    intro n i thr hk hret h404
    cases n with
    | zero => omega
    | succ m =>
      have hshift : ∀ j < k, retryableAttempt (attempts (i + 1 + j)) := by
        intro j hj
        have := hret (j + 1) (by omega)
        rwa [show i + (j + 1) = i + 1 + j by omega] at this
      have h404' : attempts (i + 1 + k) = .response 404 := by
        rwa [show i + (k + 1) = i + 1 + k by omega] at h404
      have hi := hret 0 (by omega)
      rw [Nat.add_zero] at hi
      cases hatt : attempts i with
      | transportError =>
        simp only [retryLoop, hatt]
        exact ih m (i + 1) thr (by omega) hshift h404'
      | response code =>
        rw [hatt] at hi
        obtain ⟨hcode, hne⟩ := hi
        simp only [retryLoop, hatt, if_pos hcode, if_neg hne]
        by_cases hthr : code = 429 ∨ code = 503
        · rw [if_pos hthr]
          exact ih m (i + 1) true (by omega) hshift h404'
        · rw [if_neg hthr]
          exact ih m (i + 1) thr (by omega) hshift h404'

theorem retryLoop_reachSuccess (attempts : ℕ → HttpAttempt) :
    ∀ k n i (thr : Bool) c, k < n → (∀ j < k, retryableAttempt (attempts (i + j))) →
      attempts (i + k) = .response c → 200 ≤ c → c ≤ 299 →
      retryLoop attempts n i thr = .success (i + k) := by
  intro k
  induction k with
  | zero =>
    intro n i thr c hk _ hok h1 h2
    rw [Nat.add_zero] at hok
    cases n with
    | zero => omega
    | succ m =>
      simp only [retryLoop, hok, Nat.add_zero]
      rw [if_neg (by omega)]
  | succ k ih =>
    intro n i thr c hk hret hok h1 h2
    cases n with
    | zero => omega
    | succ m =>
      have hshift : ∀ j < k, retryableAttempt (attempts (i + 1 + j)) := by
        intro j hj
        have := hret (j + 1) (by omega)
        rwa [show i + (j + 1) = i + 1 + j by omega] at this
      have hok' : attempts (i + 1 + k) = .response c := by
        rwa [show i + (k + 1) = i + 1 + k by omega] at hok
      have hres : i + 1 + k = i + (k + 1) := by omega
      have hi := hret 0 (by omega)
      rw [Nat.add_zero] at hi
      cases hatt : attempts i with
      | transportError =>
        simp only [retryLoop, hatt]
        rw [ih m (i + 1) thr c (by omega) hshift hok' h1 h2, hres]
      | response code =>
        rw [hatt] at hi
        obtain ⟨hcode, hne⟩ := hi
        simp only [retryLoop, hatt, if_pos hcode, if_neg hne]
        by_cases hthr : code = 429 ∨ code = 503
        · rw [if_pos hthr, ih m (i + 1) true c (by omega) hshift hok' h1 h2, hres]
        · rw [if_neg hthr, ih m (i + 1) thr c (by omega) hshift hok' h1 h2, hres]

theorem retryLoop_exhaust (attempts : ℕ → HttpAttempt) :
    ∀ n i (thr : Bool), (∀ j < n, retryableAttempt (attempts (i + j))) →
      (thr = true ∨ ∃ j, j < n ∧ throttledAttempt (attempts (i + j))) →
      retryLoop attempts n i thr = .exitProcess EBUSY := by
  intro n
  induction n with
  | zero =>
    intro i thr _ hthr
    rcases hthr with h | ⟨j, hj, _⟩
    · subst h; rfl
    · omega
  | succ m ih =>
    intro i thr hret hthr
    have hshift : ∀ j < m, retryableAttempt (attempts (i + 1 + j)) := by
      intro j hj
      have := hret (j + 1) (by omega)
      rwa [show i + (j + 1) = i + 1 + j by omega] at this
    have hi := hret 0 (by omega)
    rw [Nat.add_zero] at hi
    cases hatt : attempts i with
    | transportError =>
      simp only [retryLoop, hatt]
      apply ih (i + 1) thr hshift
      rcases hthr with h | ⟨j, hj, hth⟩
      · exact Or.inl h
      · cases j with
        | zero =>
          rw [Nat.add_zero, hatt] at hth
          exact absurd hth (by simp [throttledAttempt])
        | succ j' =>
          refine Or.inr ⟨j', by omega, ?_⟩
          rwa [show i + (j' + 1) = i + 1 + j' by omega] at hth
    | response code =>
      rw [hatt] at hi
      obtain ⟨hcode, hne⟩ := hi
      simp only [retryLoop, hatt, if_pos hcode, if_neg hne]
      by_cases hthrc : code = 429 ∨ code = 503
      · rw [if_pos hthrc]
        exact ih (i + 1) true hshift (Or.inl rfl)
      · rw [if_neg hthrc]
        apply ih (i + 1) thr hshift
        rcases hthr with h | ⟨j, hj, hth⟩
        · exact Or.inl h
        · cases j with
          | zero =>
            rw [Nat.add_zero, hatt] at hth
            exact absurd hth hthrc
          | succ j' =>
            refine Or.inr ⟨j', by omega, ?_⟩
            rwa [show i + (j' + 1) = i + 1 + j' by omega] at hth

end Fastar

namespace Fastar

/-- C3: in `retryHttpRequest`,
(1) a 404 response (reached through any prefix of retried attempts) makes
the process exit with `ENOENT` at once, however much budget remains;
(2) any retryable failure — a transport error or any non-2xx status other
than 404, including 429/503 — is followed by further attempts: a later 2xx
attempt inside the budget is returned as the success;
(3) when the whole budget is spent on retryable failures and some attempt
was throttled (429 or 503), the process exits with `EBUSY`. -/
theorem retryHttpRequest_classification :
    (∀ rc att i, i < rc → (∀ j < i, retryableAttempt (att j)) →
        att i = .response 404 → retryHttpRequest rc att = .exitProcess ENOENT)
      ∧ (∀ rc att i c, i < rc → (∀ j < i, retryableAttempt (att j)) →
          att i = .response c → 200 ≤ c → c ≤ 299 →
          retryHttpRequest rc att = .success i)
      ∧ (∀ rc att, (∀ i < rc, retryableAttempt (att i)) →
          (∃ i, i < rc ∧ throttledAttempt (att i)) →
          retryHttpRequest rc att = .exitProcess EBUSY) := by
  refine ⟨?_, ?_, ?_⟩
  · intro rc att i hi hret h404
    have := retryLoop_reach404 att i rc 0 false hi (by simpa using hret) (by simpa using h404)
    simpa [retryHttpRequest] using this
  · intro rc att i c hi hret hok h1 h2
    have := retryLoop_reachSuccess att i rc 0 false c hi (by simpa using hret)
      (by simpa using hok) h1 h2
    simpa [retryHttpRequest] using this
  · intro rc att hret hthr
    have := retryLoop_exhaust att rc 0 false (by simpa using hret)
      (Or.inr (by simpa using hthr))
    simpa [retryHttpRequest] using this

/-- Witness for C3's theorem: budget 2, first attempt 503 (throttled),
second attempt 500 (other transient) — exhaustion exits `EBUSY` because
the throttled flag was set. -/
theorem retryHttpRequest_classification_witness :
    retryHttpRequest 2 (fun i => if i = 0 then .response 503 else .response 500)
      = .exitProcess EBUSY := by
  apply retryHttpRequest_classification.2.2
  · intro i hi
    by_cases h : i = 0 <;> simp [h, retryableAttempt]
  · exact ⟨0, by norm_num, by simp [throttledAttempt]⟩

end Fastar

namespace Fastar

/-- C7: the claim reads `ChunkFinished`'s disjunction with mathematical
(non-wrapping) integer arithmetic.  The code computes
`curChunkStart+curProgress` with Go `int64` addition, which wraps, so the
claim fails once the sum overflows: at
`start = 2^63 - 1, progress = 1, size = 0, chunkSize = 5` the mathematical
disjunct `start + progress ≥ size` holds but the function returns `false`. -/
theorem chunkFinished_overflow_counterexample :
    ChunkFinished (2 ^ 63 - 1) 1 0 5 = false
      ∧ ((1 : ℤ) = 5 ∨ (2 ^ 63 - 1 : ℤ) + 1 ≥ 0) := by
  constructor
  · decide
  · right; norm_num

/-- C7 (amended): for all `int64` arguments whose sum `start + progress`
stays inside the `int64` range (no overflow), `ChunkFinished` returns `true`
iff `progress = chunkSize` or `start + progress ≥ size`. -/
theorem chunkFinished_iff (curChunkStart curProgress fileSize chunkSize : ℤ)
    (h1 : -2 ^ 63 ≤ curChunkStart + curProgress)
    (h2 : curChunkStart + curProgress < 2 ^ 63) :
    ChunkFinished curChunkStart curProgress fileSize chunkSize = true
      ↔ (curProgress = chunkSize ∨ curChunkStart + curProgress ≥ fileSize) := by
  simp [ChunkFinished, wrap64_eq_self h1 h2]

/-- Witness for C7's amended theorem at a concrete input. -/
theorem chunkFinished_iff_witness :
    ChunkFinished 0 3 2 5 = true := by
  exact (chunkFinished_iff 0 3 2 5 (by norm_num) (by norm_num)).mpr (Or.inr (by norm_num))

/-- C8: for every non-empty list of half-open byte ranges (lower bounds
non-negative, `a ≤ b`, upper bounds inside `int64`), `GenerateRangeString`
produces the inclusive wire-format string
`"bytes=a0-(b0-1),a1-(b1-1),..."`; in particular `[[0,1]]` yields
`"bytes=0-0"` and `[[0,1],[3,6]]` yields `"bytes=0-0,3-5"`. -/
theorem generateRangeString_wire_format :
    (∀ ranges : List (ℤ × ℤ), ranges ≠ [] →
        (∀ p ∈ ranges, 0 ≤ p.1 ∧ p.1 ≤ p.2 ∧ p.2 < 2 ^ 63) →
        GenerateRangeString ranges = rangeWireFormat ranges)
      ∧ GenerateRangeString [(0, 1)] = "bytes=0-0"
      ∧ GenerateRangeString [(0, 1), (3, 6)] = "bytes=0-0,3-5" := by
  refine ⟨fun ranges _ hv => ?_, by decide, by decide⟩
  unfold GenerateRangeString rangeWireFormat
  rw [rangeItemsString_eq_joinComma ranges hv]

/-- Witness for C8's theorem at a concrete non-empty input. -/
theorem generateRangeString_wire_format_witness :
    GenerateRangeString [(3, 6)] = rangeWireFormat [(3, 6)] := by
  exact generateRangeString_wire_format.1 [(3, 6)] (by simp)
    (by intro p hp; simp at hp; simp [hp])

end Fastar

namespace Fastar

/-- Source (`downloader.go`, reader activity of the per-worker loop):
`chunkTooSlowSoFar = attemptElapsedMilli > float64(opts.MinSpeedWait)*1000 && float64(totalRead)/chunkElapsedMilli < minSpeedBytesPerMillisecond`.
The `float64` arithmetic on byte counts and millisecond counts is modelled
by exact rationals.  `minSpeedWait` is `opts.MinSpeedWait` in seconds;
`minSpeedBytesPerMillisecond` is the configured threshold. -/
def chunkTooSlowSoFar (attemptElapsedMilli chunkElapsedMilli : ℚ) (totalRead : ℕ)
    (minSpeedWait : ℕ) (minSpeedBytesPerMillisecond : ℚ) : Bool :=
  decide (attemptElapsedMilli > (minSpeedWait : ℚ) * 1000)
    && decide ((totalRead : ℚ) / chunkElapsedMilli < minSpeedBytesPerMillisecond)

/-- What one iteration of the reader activity does after a `Read` call. -/
inductive ReaderStep where
  | finishChunk
  | keepReading
  | exitProcess (code : ℕ)
  | resetConnection (offset attemptNumber : ℕ)
  deriving DecidableEq

/-- Source (`downloader.go`, reader activity): after accumulating
`totalRead`, the loop first breaks when
`ChunkFinished(reader.CurChunkStart, totalRead, size, chunkSize)` (closing
the reader); otherwise, if `chunkTooSlowSoFar || err != nil`, it exits the
process with `unix.EIO` when `attemptNumber > opts.RetryCount`, and
otherwise calls `reader.Reset(reader.CurChunkStart + totalRead)`,
`reader.RequestChunk()` and increments `attemptNumber` (also restarting the
per-attempt clock); with neither condition it keeps reading. -/
def readerLoopStep (size chunkSize curChunkStart totalRead : ℕ) (readErr : Bool)
    (tooSlow : Bool) (attemptNumber retryCount : ℕ) : ReaderStep :=
  if ChunkFinishedNat curChunkStart totalRead size chunkSize then .finishChunk
  else if tooSlow || readErr then
    if attemptNumber > retryCount then .exitProcess EIO
    else .resetConnection (curChunkStart + totalRead) (attemptNumber + 1)
  else .keepReading

/-- C4: the reader activity judges an attempt too slow exactly when the
attempt's elapsed time exceeds the min-speed-wait grace period and
`totalRead` divided by the chunk's elapsed time is below the
bytes-per-millisecond threshold; while the chunk is unfinished, a too-slow
judgement or a read error exits the process with `EIO` (code 5) when
`attemptNumber` exceeds the retry budget, and otherwise resets the reader
at `curChunkStart + totalRead` and increments `attemptNumber`; with
neither condition the reader keeps reading. -/
theorem readerStep_min_speed_policy
    (aE cE minBpm : ℚ) (mw tR sz C st att rc : ℕ) (readErr : Bool) :
    (chunkTooSlowSoFar aE cE tR mw minBpm = true
        ↔ ((mw : ℚ) * 1000 < aE ∧ (tR : ℚ) / cE < minBpm))
      ∧ EIO = 5
      ∧ (ChunkFinishedNat st tR sz C = false →
          (chunkTooSlowSoFar aE cE tR mw minBpm = true ∨ readErr = true) →
          rc < att →
          readerLoopStep sz C st tR readErr (chunkTooSlowSoFar aE cE tR mw minBpm) att rc
            = .exitProcess EIO)
      ∧ (ChunkFinishedNat st tR sz C = false →
          (chunkTooSlowSoFar aE cE tR mw minBpm = true ∨ readErr = true) →
          att ≤ rc →
          readerLoopStep sz C st tR readErr (chunkTooSlowSoFar aE cE tR mw minBpm) att rc
            = .resetConnection (st + tR) (att + 1))
      ∧ (ChunkFinishedNat st tR sz C = false →
          chunkTooSlowSoFar aE cE tR mw minBpm = false → readErr = false →
          readerLoopStep sz C st tR readErr (chunkTooSlowSoFar aE cE tR mw minBpm) att rc
            = .keepReading) := by
  refine ⟨?_, rfl, ?_, ?_, ?_⟩
  · simp [chunkTooSlowSoFar]
  · intro hfin hcond hatt
    have hor : (chunkTooSlowSoFar aE cE tR mw minBpm || readErr) = true := by
      rcases hcond with h | h <;> simp [h]
    simp [readerLoopStep, hfin, hor, hatt]
  · intro hfin hcond hatt
    have hor : (chunkTooSlowSoFar aE cE tR mw minBpm || readErr) = true := by
      rcases hcond with h | h <;> simp [h]
    simp [readerLoopStep, hfin, hor]
    omega
  · intro hfin hslow herr
    simp [readerLoopStep, hfin, hslow, herr]

/-- Witness for C4's theorem: attempt elapsed 2000 ms against a 1 s grace
period, 0 bytes read over 2000 ms against a threshold of 1 byte/ms, attempt
number 3 against a budget of 2: the process exits with code 5. -/
theorem readerStep_min_speed_policy_witness :
    readerLoopStep 10 5 0 0 false (chunkTooSlowSoFar 2000 2000 0 1 1) 3 2
      = ReaderStep.exitProcess EIO := by
  refine (readerStep_min_speed_policy 2000 2000 1 1 0 10 5 0 3 2 false).2.2.1
    (by decide) (Or.inl ?_) (by decide)
  rw [(readerStep_min_speed_policy 2000 2000 1 1 0 10 5 0 3 2 false).1]
  norm_num

end Fastar

namespace Fastar

/-- State of the tar extractor's writer pool: the number of free tokens in
the `openFileTokens` channel (capacity `W`, initially full) and the number
of dispatched `writeFileAsync` tasks not yet finished (the `sync.WaitGroup`
count). -/
structure PoolState where
  tokens : ℕ
  inFlight : ℕ
  deriving DecidableEq

/-- The pool-relevant actions of the extractor and its writer tasks. -/
inductive TarPoolEvent where
  | dispatchWrite
  | writerDone
  | hardLinkEntry
  | syncEntry
  deriving DecidableEq

/-- Source (`extract_tar` file): the transitions of the writer pool.
`dispatchWrite` models the regular-file branch `<-openFileTokens;
wg.Add(1); go writeFileAsync(...)` — it needs a free token and adds an
in-flight task.  `writerDone` models `writeFileAsync` finishing
(`defer wg.Done()`, `defer func() { openFileTokens <- true }()`).
`hardLinkEntry` models the hard-link branch, whose `hardLink` first calls
`wg.Wait()`: it is only enabled when no dispatched write is outstanding.
`syncEntry` models directory / symlink / skipped entries, which do not
touch the pool. -/
inductive PoolStep : PoolState → TarPoolEvent → PoolState → Prop where
  | dispatchWrite (t f : ℕ) : PoolStep ⟨t + 1, f⟩ .dispatchWrite ⟨t, f + 1⟩
  | writerDone (t f : ℕ) : PoolStep ⟨t, f + 1⟩ .writerDone ⟨t + 1, f⟩
  | hardLinkEntry (t : ℕ) : PoolStep ⟨t, 0⟩ .hardLinkEntry ⟨t, 0⟩
  | syncEntry (s : PoolState) : PoolStep s .syncEntry s

/-- Pool states reachable from the initial state of `ExtractTar`: the token
channel filled with `W = *writeWorkers` tokens and no write in flight. -/
inductive PoolReachable (W : ℕ) : PoolState → Prop where
  | init : PoolReachable W ⟨W, 0⟩
  | step {s e s'} : PoolReachable W s → PoolStep s e s' → PoolReachable W s'

theorem poolReachable_invariant (W : ℕ) :
    ∀ s, PoolReachable W s → s.tokens + s.inFlight = W := by
  intro s h
  induction h with
  | init => rfl
  | step _ hstep ih =>
    cases hstep with
    | dispatchWrite t f => simp_all; omega
    | writerDone t f => simp_all; omega
    | hardLinkEntry t => exact ih
    | syncEntry s => exact ih

/-- C6: in every execution of the tar extractor, at most `W` regular-file
writer tasks are in flight at any reachable moment, and a hard-link step is
only enabled in states where every previously dispatched write has
completed (`hardLink` waits on the `WaitGroup` before linking). -/
theorem tarPool_bounded_and_barrier (W : ℕ) (s : PoolState)
    (h : PoolReachable W s) :
    s.inFlight ≤ W
      ∧ (∀ e s', PoolStep s e s' → e = .hardLinkEntry → s.inFlight = 0) := by
  constructor
  · have := poolReachable_invariant W s h
    omega
  · intro e s' hstep he
    cases hstep <;> simp_all

/-- Witness for C6's theorem: a state with one write in flight, reached
from an 8-token pool by one dispatch. -/
theorem tarPool_bounded_and_barrier_witness :
    (PoolState.mk 7 1).inFlight ≤ 8
      ∧ (∀ e s', PoolStep ⟨7, 1⟩ e s' → e = .hardLinkEntry
          → (PoolState.mk 7 1).inFlight = 0) := by
  exact tarPool_bounded_and_barrier 8 ⟨7, 1⟩
    (PoolReachable.step PoolReachable.init (PoolStep.dispatchWrite 7 0))

end Fastar

namespace Fastar

/-- Whether the modelled process survives an extraction step (`ok`) or
aborts via `log.Fatal` (`fatal`). -/
inductive ExtractResult where
  | ok
  | fatal
  deriving DecidableEq

/-- Source (`extract_tar` file), `tar.TypeDir` branch: `os.MkdirAll` error
is `log.Fatalf`; the return values of the following `os.Chmod` and
`os.Chown` are discarded. -/
def extractDirEntry (mkdirErr _chmodErr _chownErr : Bool) : ExtractResult :=
  if mkdirErr then .fatal else .ok

/-- Source (`extract_tar` file), parent-directory creation before each
entry: an `os.MkdirAll` error is `log.Fatalf`. -/
def parentDirStep (mkdirAllErr : Bool) : ExtractResult :=
  if mkdirAllErr then .fatal else .ok

/-- Source (`extract_tar` file), `writeFileAsync`: `os.OpenFile` error and
`io.Copy` error are `log.Fatal`; the deferred `os.Chmod` and `os.Chown`
return values are discarded. -/
def writeFileAsyncStep (openErr copyErr _chmodErr _chownErr : Bool) : ExtractResult :=
  if openErr then .fatal else if copyErr then .fatal else .ok

/-- Source (`extract_tar` file), `tar.TypeSymlink` branch: `os.Symlink`
error is `log.Fatal`; the return value of `os.Lchown` is discarded. -/
def symlinkEntryStep (symlinkErr _lchownErr : Bool) : ExtractResult :=
  if symlinkErr then .fatal else .ok

/-- Source (`extract_tar` file), `hardLink`: `os.Link` error is
`log.Fatal`; the return value of the following `os.Chown` is discarded. -/
def hardLinkStep (linkErr _chownErr : Bool) : ExtractResult :=
  if linkErr then .fatal else .ok

/-- C9: the claim says a chown or chmod failure on an extracted entry
causes a fatal abort, but the source discards the return values of
`os.Chmod`, `os.Chown` and `os.Lchown`: a directory entry whose chmod and
chown both fail extracts without aborting. -/
theorem extractor_chown_ignored :
    extractDirEntry false true true = ExtractResult.ok
      ∧ writeFileAsyncStep false false true true = ExtractResult.ok
      ∧ symlinkEntryStep false true = ExtractResult.ok := by
  decide

/-- C9 (amended): every mkdir, open, copy, symlink, or link error during
tar extraction aborts the process, but chmod/chown/lchown errors on
extracted directories, regular files, and symlinks are silently ignored
(their return values are discarded). -/
theorem extractor_fatal_errors :
    ∀ a b : Bool,
      parentDirStep true = ExtractResult.fatal
        ∧ extractDirEntry true a b = ExtractResult.fatal
        ∧ writeFileAsyncStep true a b true = ExtractResult.fatal
        ∧ writeFileAsyncStep false true a b = ExtractResult.fatal
        ∧ symlinkEntryStep true a = ExtractResult.fatal
        ∧ hardLinkStep true a = ExtractResult.fatal
        ∧ extractDirEntry false a b = ExtractResult.ok
        ∧ writeFileAsyncStep false false a b = ExtractResult.ok
        ∧ symlinkEntryStep false a = ExtractResult.ok
        ∧ hardLinkStep false a = ExtractResult.ok := by
  decide

end Fastar

namespace Fastar

/-- Source (`http_downloader.go`): `HttpDownloader.GetFileInfo` issues a
HEAD request and inspects the response.  If `resp.ContentLength >
opts.ChunkSize` it returns `(resp.ContentLength,
resp.Header.Get("Accept-Ranges") != "", false)` — multipart support is
hard-disabled; otherwise it returns `(resp.ContentLength, false, false)`. -/
def HttpGetFileInfo (contentLength chunkSize : ℤ) (acceptRangesHdr : String) :
    ℤ × Bool × Bool :=
  if contentLength > chunkSize then (contentLength, acceptRangesHdr != "", false)
  else (contentLength, false, false)

/-- C10: for every server response, the HTTP adapter's probe reports
`supports_multipart = false`, and reports `supports_range = false` whenever
the content length is not strictly greater than the configured chunk size —
so the engine can never take the multipart path for an HTTP source. -/
theorem httpGetFileInfo_no_multipart (contentLength chunkSize : ℤ)
    (acceptRangesHdr : String) :
    (HttpGetFileInfo contentLength chunkSize acceptRangesHdr).2.2 = false
      ∧ (contentLength ≤ chunkSize →
          (HttpGetFileInfo contentLength chunkSize acceptRangesHdr).2.1 = false) := by
  constructor
  · unfold HttpGetFileInfo
    by_cases h : contentLength > chunkSize <;> simp [h]
  · intro hle
    unfold HttpGetFileInfo
    rw [if_neg (by omega)]

/-- Witness for C10's theorem: a 1000-byte file against a 2000-byte chunk
size with an `Accept-Ranges: bytes` header reports neither capability. -/
theorem httpGetFileInfo_no_multipart_witness :
    (HttpGetFileInfo 1000 2000 "bytes").2.2 = false
      ∧ (HttpGetFileInfo 1000 2000 "bytes").2.1 = false := by
  exact ⟨(httpGetFileInfo_no_multipart 1000 2000 "bytes").1,
    (httpGetFileInfo_no_multipart 1000 2000 "bytes").2 (by norm_num)⟩

end Fastar
